import Mathlib

/-!
Verification of the Hocus-Pocus audio fingerprinting engine.

This file gives a shallow embedding, in Lean 4, of the core pipeline of the
repository:

- SpectrogramProcessor.compute_spectrogram, maximum_filter and find_peaks
  (src/src/audio/spectrogram_processor.py),
- FingerprintGenerator.generate_fingerprints
  (src/src/core/fingerprint_generator.py),
- DatabaseManager.match_query and get_match_details
  (src/src/database/database_manager.py),

followed by theorems settling the specification claims about them.
Machine integers of the source are modelled as Int or Nat, floating point
values as real (or rational, where the code only compares and divides
integers) numbers, numpy arrays as lists of lists, and fallible numpy calls
as Option.
-/

namespace HocusPocus

/-! ## Fingerprint generator (src/src/core/fingerprint_generator.py)

Peaks are (time_index, freq_index) pairs; fingerprints are
((f_anchor, f_target, delta_t), t_anchor). -/

/-- Stable sort of peaks by time index only, modelling Python's
sorted(peaks, key=lambda peak: peak[0]). Mathlib's insertionSort with this
reflexive-on-ties relation is stable, exactly like Python's sort. -/
def sortPeaks : List (ℤ × ℤ) → List (ℤ × ℤ) :=
  List.insertionSort (fun a b => a.1 ≤ b.1)

/-- Fingerprints produced by one anchor a paired against the next
min(fan_value, remaining) peaks (the inner loop of generate_fingerprints,
lines 65-73 of the source): targets are the first fan elements after the
anchor in sorted order, filtered by the target zone on delta_t. -/
def anchorFingerprints (fan : ℕ) (tz : ℤ × ℤ) (a : ℤ × ℤ) (rest : List (ℤ × ℤ)) :
    List ((ℤ × ℤ × ℤ) × ℤ) :=
  ((rest.take fan).filter
      (fun b => decide (tz.1 ≤ b.1 - a.1) && decide (b.1 - a.1 ≤ tz.2))).map
    (fun b => ((a.2, b.2, b.1 - a.1), a.1))

/-- The outer anchor loop of generate_fingerprints over an already sorted
peak list: each element in turn is the anchor, paired against the peaks that
follow it. -/
def genSorted (fan : ℕ) (tz : ℤ × ℤ) : List (ℤ × ℤ) → List ((ℤ × ℤ × ℤ) × ℤ)
  | [] => []
  | a :: rest => anchorFingerprints fan tz a rest ++ genSorted fan tz rest

/-- FingerprintGenerator.generate_fingerprints: empty guard, stable sort by
time, then the anchor/target pairing loop. -/
def generate_fingerprints (fan : ℕ) (tz : ℤ × ℤ) (peaks : List (ℤ × ℤ)) :
    List ((ℤ × ℤ × ℤ) × ℤ) :=
  if peaks.isEmpty then [] else genSorted fan tz (sortPeaks peaks)

/-! ## Matcher (src/src/database/database_manager.py)

The fingerprint index is modelled as a pure lookup function from hash
triples to postings (song_id, t_anchor), the contract the SQL SELECT
provides. The vote map is an insertion-ordered association list, modelling
the Python defaultdict(int) (Python dicts preserve insertion order). -/

/-- One vote increment in the score map, modelling scores[(song_id, offset)] += 1
on a defaultdict: an existing key is incremented in place, a new key is
appended at the end. -/
def addVote (scores : List ((ℤ × ℤ) × ℕ)) (key : ℤ × ℤ) : List ((ℤ × ℤ) × ℕ) :=
  if scores.any (fun e => decide (e.1 = key)) then
    scores.map (fun e => if e.1 = key then (e.1, e.2 + 1) else e)
  else
    scores ++ [(key, 1)]

/-- First maximal element by score, modelling Python's max(..., key=...) over
an iteration order: a later element replaces the current best only when its
score is strictly greater, so ties keep the earliest element. Returns none
exactly on the empty list. -/
def argmaxFirst {κ : Type} : List (κ × ℕ) → Option (κ × ℕ) :=
  List.foldl
    (fun best e =>
      match best with
      | none => some e
      | some b => if b.2 < e.2 then some e else some b)
    none

/-- Processing of the postings returned by one index lookup (the inner loop
of match_query): each posting (song_id, t_anchor_db) casts one vote for
(song_id, t_anchor_db - t_anchor_query). -/
def processPostings (t_query : ℤ) (scores : List ((ℤ × ℤ) × ℕ)) (postings : List (ℤ × ℤ)) :
    List ((ℤ × ℤ) × ℕ) :=
  postings.foldl (fun s posting => addVote s (posting.1, posting.2 - t_query)) scores

/-- The vote accumulation loop of match_query, also counting the index
lookups performed: each query fingerprint causes exactly one lookup. -/
def voteLoop (idx : ℤ × ℤ × ℤ → List (ℤ × ℤ)) (q : List ((ℤ × ℤ × ℤ) × ℤ)) :
    List ((ℤ × ℤ) × ℕ) × ℕ :=
  q.foldl (fun acc fp => (processPostings fp.2 acc.1 (idx fp.1), acc.2 + 1)) ([], 0)

/-- DatabaseManager.match_query: accumulate votes, then pick the
maximum-vote (song_id, offset) pair if any votes exist. The result pairs
the Python return value (best_song_id, scores) with the number of index
lookups performed. -/
def matchQuery (idx : ℤ × ℤ × ℤ → List (ℤ × ℤ)) (q : List ((ℤ × ℤ × ℤ) × ℤ)) :
    (Option ℤ × List ((ℤ × ℤ) × ℕ)) × ℕ :=
  let acc := voteLoop idx q
  match argmaxFirst acc.1 with
  | some best => ((some best.1.1, acc.1), acc.2)
  | none => ((none, acc.1), acc.2)

/-- Numeric fields of the dictionary returned by get_match_details (the
song_info metadata lookup is outside the core). -/
structure MatchDetails where
  best_offset : ℤ
  best_score : ℕ
  total_matches : ℕ
  confidence : ℚ

/-- DatabaseManager.get_match_details: restrict the vote map to the given
song, take the best (offset, score) by score, sum the song's votes, and
divide the best score by the size of the whole vote map. -/
def getMatchDetails (song_id : ℤ) (scores : List ((ℤ × ℤ) × ℕ)) : MatchDetails :=
  let song_scores := scores.filterMap
    (fun e : (ℤ × ℤ) × ℕ => if e.1.1 = song_id then some (e.1.2, e.2) else none)
  let bst :=
    match argmaxFirst song_scores with
    | some b => (b.1, b.2, song_scores.foldl (fun (a : ℕ) (e : ℤ × ℕ) => a + e.2) 0)
    | none => (0, 0, 0)
  { best_offset := bst.1
    best_score := bst.2.1
    total_matches := bst.2.2
    confidence := if scores.isEmpty then 0 else (bst.2.1 : ℚ) / (scores.length : ℚ) }

/-! ## Maximum filter and peak detection
(src/src/audio/spectrogram_processor.py, maximum_filter and find_peaks)

The spectrogram matrix is a list of rows (frequency bins), each row a list
over time frames. The filter is polymorphic in the cell type, as the numpy
code is; partiality of the numpy calls is modelled with Option:
as_strided rejects a negative shape dimension, numpy max rejects a
reduction over a zero-size window axis, and numpy pad in edge mode rejects
an empty axis. -/

variable {α : Type} [Inhabited α] [LinearOrder α]

/-- Cell access array[i, j] with a default outside the bounds (never used
in-bounds, as in numpy). -/
def mget (m : List (List α)) (i j : ℕ) : α := (m.getD i default).getD j default

/-- Values of the fw times tw window whose top-left corner is (i, j). -/
def windowVals (m : List (List α)) (i j fw tw : ℕ) : List α :=
  (List.range fw).flatMap (fun di => (List.range tw).map (fun dj => mget m (i + di) (j + dj)))

/-- Maximum over the fw times tw window at top-left corner (i, j), the value
numpy max computes for one sliding window (the window contains (i, j), so
starting the fold there is the plain maximum). -/
def windowMax (m : List (List α)) (i j fw tw : ℕ) : α :=
  (windowVals m i j fw tw).foldl max (mget m i j)

/-- One-dimensional edge padding: lo copies of the first element before, hi
copies of the last element after, as numpy pad mode edge does on one axis. -/
def padEdge {β : Type} [Inhabited β] (lo hi : ℕ) (l : List β) : List β :=
  List.replicate lo (l.headD default) ++ l ++ List.replicate hi (l.getLastD default)

/-- The sliding-window maxima over all valid window positions: the value of
the as_strided view reduced with numpy max over the window axes, with
shape (freq_dim - freq_window + 1, time_dim - time_window + 1). -/
def validWindowMaxima (m : List (List α)) (fw tw : ℕ) : List (List α) :=
  (List.range (m.length + 1 - fw)).map
    (fun i => (List.range ((m.headD default).length + 1 - tw)).map
      (fun j => windowMax m i j fw tw))

/-- SpectrogramProcessor.maximum_filter: sliding-window maxima over all
valid window positions (the as_strided view plus max), then edge padding of
the result back to the input shape. none models the numpy exceptions on
too-small inputs: as_strided rejects a negative shape entry, max rejects a
zero-size window axis, and pad in edge mode rejects an empty result axis. -/
def maximumFilter (m : List (List α)) (fs : ℕ × ℕ) : Option (List (List α)) :=
  let fw := fs.1
  let tw := fs.2
  let fd := m.length
  let td := (m.headD default).length
  if (fd : ℤ) - fw + 1 < 0 ∨ (td : ℤ) - tw + 1 < 0 then none
  else if fw = 0 ∨ tw = 0 then none
  else if fd + 1 - fw = 0 ∨ td + 1 - tw = 0 then none
  else some ((padEdge ((fw - 1) / 2) (fw - 1 - (fw - 1) / 2)
      (validWindowMaxima m fw tw)).map
    (padEdge ((tw - 1) / 2) (tw - 1 - (tw - 1) / 2)))

/-- SpectrogramProcessor.find_peaks: cells equal to their local maximum and
strictly above the threshold, scanned row-major over (freq, time) as
numpy argwhere does, reported as (time_index, freq_index). -/
def findPeaks (m : List (List α)) (ns : ℕ × ℕ) (threshold : α) : Option (List (ℕ × ℕ)) :=
  (maximumFilter m ns).map (fun loc =>
    (List.range m.length).flatMap (fun i =>
      (List.range (m.headD default).length).filterMap (fun j =>
        if mget m i j = mget loc i j ∧ threshold < mget m i j then some (j, i) else none)))

/-- Modelled from the spec: the maximum over a freq_window times time_window
neighborhood centered (as closely as integer padding allows) on cell (i, j),
with edge-value padding applied at the matrix boundary, i.e. out-of-range
neighbor indices are clamped to the nearest valid index. This is the value
the spec sentence ascribes to every cell of the filtered matrix; it is
compared against the maximum_filter embedding above. -/
def specCenteredMax (m : List (List α)) (fw tw i j : ℕ) : α :=
  let fd := m.length
  let td := (m.headD default).length
  let fp := (fw - 1) / 2
  let tp := (tw - 1) / 2
  let vals := (List.range fw).flatMap (fun di => (List.range tw).map (fun dj =>
    mget m (min (i + di - fp) (fd - 1)) (min (j + dj - tp) (td - 1))))
  vals.foldl max (vals.headD default)

/-- Shape predicate for a rectangular matrix of fd rows and td columns. -/
def IsMatrix (m : List (List α)) (fd td : ℕ) : Prop :=
  m.length = fd ∧ ∀ row ∈ m, row.length = td

/-! ## Spectrogram computation
(src/src/audio/spectrogram_processor.py, compute_spectrogram)

Floating point is modelled over the reals. The signal is a list of real
samples; the failure on a too-short signal is modelled with Option. -/

/-- The numpy hanning window of length M: 0.5 - 0.5 cos(2 pi n / (M - 1)). -/
noncomputable def hanningWindow (M : ℕ) : List ℝ :=
  (List.range M).map (fun n => 0.5 - 0.5 * Real.cos (2 * Real.pi * n / ((M : ℝ) - 1)))

/-- Frame number f of the signal, zero-padded to fft samples and multiplied
pointwise by the analysis window (the frame extraction, zero padding and
windowing of compute_spectrogram). -/
noncomputable def windowedFrame (signal : List ℝ) (fft hop f : ℕ) : List ℝ :=
  (List.range fft).map (fun n => signal.getD (f * hop + n) 0 * (hanningWindow fft).getD n 0)

/-- Magnitude of bin k of the real-input discrete Fourier transform of a
length-N frame, modelling abs(numpy rfft(frame))[k]. -/
noncomputable def rfftMagnitude (frame : List ℝ) (N k : ℕ) : ℝ :=
  Complex.abs (∑ n ∈ Finset.range N, (frame.getD n 0 : ℂ) *
    Complex.exp (-(2 * (Real.pi : ℂ) * Complex.I * (k : ℂ) * (n : ℂ)) / (N : ℂ)))

/-- Decibel conversion with epsilon followed by the floor clamp:
max(20 log10(mag + 1e-10), db_floor). -/
noncomputable def dbValue (floor mag : ℝ) : ℝ :=
  max (20 * Real.logb 10 (mag + 1e-10)) floor

/-- Number of analysis frames: 1 + (len(signal) - fft_size) // hop_length. -/
def numFrames (len fft hop : ℕ) : ℕ := 1 + (len - fft) / hop

/-- SpectrogramProcessor.compute_spectrogram: guard on the signal length,
then the matrix of decibel values (rows are the fft/2 + 1 frequency bins,
columns the time frames), the frequency axis and the time axis. -/
noncomputable def computeSpectrogram (fft hop : ℕ) (floor : ℝ) (signal : List ℝ)
    (sampleRate : ℕ) : Option (List (List ℝ) × List ℝ × List ℝ) :=
  if signal.length < fft then none
  else
    let frames := numFrames signal.length fft hop
    some
      ((List.range (fft / 2 + 1)).map (fun k =>
          (List.range frames).map (fun f =>
            dbValue floor (rfftMagnitude (windowedFrame signal fft hop f) fft k))),
        (List.range (fft / 2 + 1)).map (fun k => (k : ℝ) * sampleRate / fft),
        (List.range frames).map (fun f => (f : ℝ) * hop / sampleRate))

/-! ## Order instances for the sort relations used by sortPeaks -/

instance : IsTotal (ℤ × ℤ) (fun a b => a.1 ≤ b.1) :=
  ⟨fun a b => le_total a.1 b.1⟩

instance : IsTrans (ℤ × ℤ) (fun a b => a.1 ≤ b.1) :=
  ⟨fun _ _ _ h1 h2 => le_trans h1 h2⟩

instance : IsAntisymm (ℤ × ℤ) (fun a b => a.1 < b.1) :=
  ⟨fun a _ h1 h2 => absurd (h1.trans h2) (lt_irrefl a.1)⟩

/-! ## Helper lemmas about the fingerprint generator -/

theorem sortPeaks_perm (l : List (ℤ × ℤ)) : (sortPeaks l).Perm l :=
  List.perm_insertionSort _ l

theorem sortPeaks_length (l : List (ℤ × ℤ)) : (sortPeaks l).length = l.length :=
  (sortPeaks_perm l).length_eq

theorem sortPeaks_sorted (l : List (ℤ × ℤ)) :
    (sortPeaks l).Pairwise (fun a b => a.1 ≤ b.1) :=
  List.sorted_insertionSort _ l

theorem anchorFingerprints_length_le (fan : ℕ) (tz : ℤ × ℤ) (a : ℤ × ℤ)
    (rest : List (ℤ × ℤ)) : (anchorFingerprints fan tz a rest).length ≤ fan := by
  unfold anchorFingerprints
  rw [List.length_map]
  refine le_trans (List.length_filter_le _ _) ?_
  rw [List.length_take]
  exact min_le_left _ _

theorem genSorted_length_le (fan : ℕ) (tz : ℤ × ℤ) :
    ∀ l : List (ℤ × ℤ), (genSorted fan tz l).length ≤ l.length * fan := by
  intro l
  induction l with
  | nil => simp [genSorted]
  | cons a rest ih =>
    have ha := anchorFingerprints_length_le fan tz a rest
    rw [genSorted, List.length_append, List.length_cons, Nat.succ_mul]
    omega

theorem mem_genSorted_delta (fan : ℕ) (tz : ℤ × ℤ) :
    ∀ (l : List (ℤ × ℤ)) (fp : (ℤ × ℤ × ℤ) × ℤ), fp ∈ genSorted fan tz l →
      tz.1 ≤ fp.1.2.2 ∧ fp.1.2.2 ≤ tz.2 := by
  intro l
  induction l with
  | nil => simp [genSorted]
  | cons a rest ih =>
    intro fp hfp
    rw [genSorted, List.mem_append] at hfp
    rcases hfp with hfp | hfp
    · unfold anchorFingerprints at hfp
      rw [List.mem_map] at hfp
      obtain ⟨b, hb, rfl⟩ := hfp
      rw [List.mem_filter] at hb
      have hcond := hb.2
      simp only [Bool.and_eq_true, decide_eq_true_eq] at hcond
      exact hcond
    · exact ih fp hfp

theorem mem_anchorFingerprints_snd {fan : ℕ} {tz : ℤ × ℤ} {a : ℤ × ℤ}
    {rest : List (ℤ × ℤ)} {fp : (ℤ × ℤ × ℤ) × ℤ}
    (h : fp ∈ anchorFingerprints fan tz a rest) : fp.2 = a.1 := by
  unfold anchorFingerprints at h
  rw [List.mem_map] at h
  obtain ⟨b, _, rfl⟩ := h
  rfl

theorem mem_genSorted_snd {fan : ℕ} {tz : ℤ × ℤ} :
    ∀ {l : List (ℤ × ℤ)} {fp : (ℤ × ℤ × ℤ) × ℤ}, fp ∈ genSorted fan tz l →
      ∃ p ∈ l, fp.2 = p.1 := by
  intro l
  induction l with
  | nil => simp [genSorted]
  | cons a rest ih =>
    intro fp hfp
    rw [genSorted, List.mem_append] at hfp
    rcases hfp with hfp | hfp
    · exact ⟨a, List.mem_cons_self a rest, mem_anchorFingerprints_snd hfp⟩
    · obtain ⟨p, hp, hfp⟩ := ih hfp
      exact ⟨p, List.mem_cons_of_mem a hp, hfp⟩

theorem pairwise_le_of_const {β : Type} [Preorder β] {c : β} :
    ∀ {l : List β}, (∀ x ∈ l, x = c) → l.Pairwise (· ≤ ·) := by
  intro l
  induction l with
  | nil => simp
  | cons a rest ih =>
    intro h
    rw [List.pairwise_cons]
    refine ⟨fun b hb => ?_, ih fun x hx => h x (List.mem_cons_of_mem a hx)⟩
    rw [h a (List.mem_cons_self a rest), h b (List.mem_cons_of_mem a hb)]

theorem genSorted_pairwise_snd (fan : ℕ) (tz : ℤ × ℤ) :
    ∀ {l : List (ℤ × ℤ)}, l.Pairwise (fun a b => a.1 ≤ b.1) →
      ((genSorted fan tz l).map Prod.snd).Pairwise (· ≤ ·) := by
  intro l
  induction l with
  | nil => simp [genSorted]
  | cons a rest ih =>
    intro hpw
    rw [List.pairwise_cons] at hpw
    rw [genSorted, List.map_append, List.pairwise_append]
    refine ⟨pairwise_le_of_const (c := a.1) ?_, ih hpw.2, ?_⟩
    · intro x hx
      rw [List.mem_map] at hx
      obtain ⟨fp, hfp, rfl⟩ := hx
      exact mem_anchorFingerprints_snd hfp
    · intro x hx y hy
      rw [List.mem_map] at hx hy
      obtain ⟨fp, hfp, rfl⟩ := hx
      obtain ⟨fq, hfq, rfl⟩ := hy
      obtain ⟨p, hp, hq⟩ := mem_genSorted_snd hfq
      rw [mem_anchorFingerprints_snd hfp, hq]
      exact hpw.1 p hp

/-- C9: the t_anchor components of the generated fingerprints are
nondecreasing, because anchors are consumed in time-sorted order. -/
theorem generate_fingerprints_anchors_monotone (fan : ℕ) (tz : ℤ × ℤ)
    (peaks : List (ℤ × ℤ)) :
    ((generate_fingerprints fan tz peaks).map Prod.snd).Pairwise (· ≤ ·) := by
  unfold generate_fingerprints
  split
  · simp
  · exact genSorted_pairwise_snd fan tz (sortPeaks_sorted peaks)

/-- C2: every generated fingerprint's delta_t lies in the target zone, and
when the zone minimum is at least 1 (as in the default zone (1, 20)) the
target strictly follows the anchor in time. -/
theorem generate_fingerprints_delta_in_zone (fan : ℕ) (tz : ℤ × ℤ)
    (peaks : List (ℤ × ℤ)) (htz : 1 ≤ tz.1) :
    ∀ fp ∈ generate_fingerprints fan tz peaks,
      tz.1 ≤ fp.1.2.2 ∧ fp.1.2.2 ≤ tz.2 ∧ 1 ≤ fp.1.2.2 := by
  intro fp hfp
  unfold generate_fingerprints at hfp
  split at hfp
  · simp at hfp
  · obtain ⟨h1, h2⟩ := mem_genSorted_delta fan tz (sortPeaks peaks) fp hfp
    exact ⟨h1, h2, le_trans htz h1⟩

/-- Witness for C2 at the spec scenario: peaks [(0,10), (3,20), (25,30)]
with the default configuration produce the fingerprint ((10,20,3),0), whose
delta_t 3 lies in the zone and is at least 1. -/
theorem generate_fingerprints_delta_in_zone_witness :
    (1 : ℤ) ≤ 1 ∧
      (((10 : ℤ), (20 : ℤ), (3 : ℤ)), (0 : ℤ)) ∈
        generate_fingerprints 5 (1, 20) [(0, 10), (3, 20), (25, 30)] ∧
      ((1 : ℤ) ≤ 3 ∧ (3 : ℤ) ≤ 20 ∧ (1 : ℤ) ≤ 3) :=
  ⟨by decide, by decide,
    generate_fingerprints_delta_in_zone 5 (1, 20) [(0, 10), (3, 20), (25, 30)]
      (by decide) (((10, 20, 3)), 0) (by decide)⟩

/-- C6: at most fan_value fingerprints are emitted per anchor, so the output
size is bounded by the number of peaks times fan_value. -/
theorem generate_fingerprints_count_le (fan : ℕ) (tz : ℤ × ℤ)
    (peaks : List (ℤ × ℤ)) :
    (generate_fingerprints fan tz peaks).length ≤ peaks.length * fan := by
  unfold generate_fingerprints
  split
  · simp
  · have h := genSorted_length_le fan tz (sortPeaks peaks)
    rwa [sortPeaks_length] at h

theorem sortPeaks_eq_of_perm {l₁ l₂ : List (ℤ × ℤ)} (hperm : l₁.Perm l₂)
    (hnd : (l₁.map Prod.fst).Nodup) : sortPeaks l₁ = sortPeaks l₂ := by
  have hp : (sortPeaks l₁).Perm (sortPeaks l₂) :=
    (sortPeaks_perm l₁).trans (hperm.trans (sortPeaks_perm l₂).symm)
  have hnd1 : ((sortPeaks l₁).map Prod.fst).Nodup :=
    ((sortPeaks_perm l₁).map Prod.fst).symm.nodup hnd
  have hnd2 : ((sortPeaks l₂).map Prod.fst).Nodup := (hp.map Prod.fst).nodup hnd1
  have hs1 : (sortPeaks l₁).Pairwise (fun a b => a.1 < b.1) := by
    rw [List.Nodup, List.pairwise_map] at hnd1
    exact ((sortPeaks_sorted l₁).and hnd1).imp fun h => lt_of_le_of_ne h.1 h.2
  have hs2 : (sortPeaks l₂).Pairwise (fun a b => a.1 < b.1) := by
    rw [List.Nodup, List.pairwise_map] at hnd2
    exact ((sortPeaks_sorted l₂).and hnd2).imp fun h => lt_of_le_of_ne h.1 h.2
  exact List.eq_of_perm_of_sorted hp hs1 hs2

/-- C5 counterexample: when two peaks share a time index, the stable
time-only sort keeps their input order, and under the default configuration
(fan_value 5, target zone (1, 20)) the two orders yield different
fingerprint multisets, so generation is not order-invariant as claimed. -/
theorem generate_fingerprints_not_perm_invariant :
    ([((0 : ℤ), (1 : ℤ)), (0, 2), (1, 3), (2, 4), (3, 5), (4, 6), (5, 7)] :
        List (ℤ × ℤ)).Perm
      [((0 : ℤ), (2 : ℤ)), (0, 1), (1, 3), (2, 4), (3, 5), (4, 6), (5, 7)] ∧
    ¬ (generate_fingerprints 5 (1, 20)
        [((0 : ℤ), (1 : ℤ)), (0, 2), (1, 3), (2, 4), (3, 5), (4, 6), (5, 7)]).Perm
      (generate_fingerprints 5 (1, 20)
        [((0 : ℤ), (2 : ℤ)), (0, 1), (1, 3), (2, 4), (3, 5), (4, 6), (5, 7)]) := by
  constructor
  · decide
  · decide

/-- C5 amended: fingerprint generation is invariant under permutation of
the input peaks whenever the peak times are pairwise distinct, since the
time-keyed sort then has a unique sorted arrangement; with tied times the
stable sort preserves input order and the outputs can differ. -/
theorem generate_fingerprints_perm_invariant (fan : ℕ) (tz : ℤ × ℤ)
    (l₁ l₂ : List (ℤ × ℤ)) (hperm : l₁.Perm l₂)
    (hnd : (l₁.map Prod.fst).Nodup) :
    generate_fingerprints fan tz l₁ = generate_fingerprints fan tz l₂ := by
  unfold generate_fingerprints
  have hempty : l₁.isEmpty = l₂.isEmpty := by
    have := hperm.length_eq
    cases l₁ <;> cases l₂ <;> simp_all
  rw [hempty, sortPeaks_eq_of_perm hperm hnd]

/-- Witness for the amended C5 at a concrete pair of shuffled peak lists
with distinct times. -/
theorem generate_fingerprints_perm_invariant_witness :
    ([((1 : ℤ), (5 : ℤ)), (0, 4)] : List (ℤ × ℤ)).Perm [((0 : ℤ), (4 : ℤ)), (1, 5)] ∧
      (([((1 : ℤ), (5 : ℤ)), (0, 4)] : List (ℤ × ℤ)).map Prod.fst).Nodup ∧
      generate_fingerprints 5 (1, 20) [((1 : ℤ), (5 : ℤ)), (0, 4)] =
        generate_fingerprints 5 (1, 20) [((0 : ℤ), (4 : ℤ)), (1, 5)] :=
  ⟨by decide, by decide,
    generate_fingerprints_perm_invariant 5 (1, 20) _ _ (by decide) (by decide)⟩

/-! ## Spectrogram theorems -/

/-- C7: compute_spectrogram fails (raises on the Python side, modelled as
none) exactly when the signal is shorter than the FFT window; the function
is otherwise total, so the failure is the if-and-only-if condition the spec
states. -/
theorem computeSpectrogram_fails_iff (fft hop sr : ℕ) (floor : ℝ)
    (signal : List ℝ) :
    computeSpectrogram fft hop floor signal sr = none ↔ signal.length < fft := by
  unfold computeSpectrogram
  split <;> simp_all

/-- C1: for a signal at least fft_size long, compute_spectrogram succeeds
and returns a matrix with fft_size / 2 + 1 frequency bins, each holding
1 + (len - fft_size) / hop_length time frames, with every decibel value
clamped to at least db_floor. -/
theorem computeSpectrogram_shape_and_floor (fft hop sr : ℕ) (floor : ℝ)
    (signal : List ℝ) (hhop : 0 < hop) (hlen : fft ≤ signal.length) :
    ∃ mat freqs times,
      computeSpectrogram fft hop floor signal sr = some (mat, freqs, times) ∧
        mat.length = fft / 2 + 1 ∧
        (∀ row ∈ mat, row.length = 1 + (signal.length - fft) / hop) ∧
        ∀ row ∈ mat, ∀ x ∈ row, floor ≤ x := by
  unfold computeSpectrogram
  rw [if_neg (not_lt.mpr hlen)]
  refine ⟨_, _, _, rfl, by simp, ?_, ?_⟩
  · intro row hrow
    rw [List.mem_map] at hrow
    obtain ⟨k, _, rfl⟩ := hrow
    simp [numFrames]
  · intro row hrow x hx
    rw [List.mem_map] at hrow
    obtain ⟨k, _, rfl⟩ := hrow
    rw [List.mem_map] at hx
    obtain ⟨f, _, rfl⟩ := hx
    exact le_max_right _ _

/-- Witness for C1 on a concrete three-sample signal with fft_size 2 and
hop_length 1. -/
theorem computeSpectrogram_shape_and_floor_witness :
    0 < 1 ∧ 2 ≤ ([(0 : ℝ), 0, 0]).length ∧
      (∃ mat freqs times,
        computeSpectrogram 2 1 (-80) [(0 : ℝ), 0, 0] 1 = some (mat, freqs, times) ∧
          mat.length = 2 / 2 + 1 ∧
          (∀ row ∈ mat, row.length = 1 + (([(0 : ℝ), 0, 0]).length - 2) / 1) ∧
          ∀ row ∈ mat, ∀ x ∈ row, (-80 : ℝ) ≤ x) :=
  ⟨by decide, by simp,
    computeSpectrogram_shape_and_floor 2 1 1 (-80) [(0 : ℝ), 0, 0]
      (by decide) (by simp)⟩

/-! ## Matcher theorems -/

/-- C8: an empty query fingerprint sequence makes match_query return the
no-match outcome, a None winner with an empty vote map, after zero index
lookups, for every index. -/
theorem matchQuery_empty_query (idx : ℤ × ℤ × ℤ → List (ℤ × ℤ)) :
    matchQuery idx [] = ((none, []), 0) := rfl

theorem addVote_keys_nodup {scores : List ((ℤ × ℤ) × ℕ)} {key : ℤ × ℤ}
    (h : (scores.map Prod.fst).Nodup) : ((addVote scores key).map Prod.fst).Nodup := by
  unfold addVote
  split
  · have hmap : (scores.map
        (fun e => if e.1 = key then (e.1, e.2 + 1) else e)).map Prod.fst =
        scores.map Prod.fst := by
      rw [List.map_map]
      apply List.map_congr_left
      intro e _
      by_cases he : e.1 = key <;> simp [he]
    rwa [hmap]
  · rename_i hany
    rw [List.map_append, List.nodup_append]
    refine ⟨h, by simp, ?_⟩
    intro x hx hx'
    simp only [List.map_cons, List.map_nil, List.mem_singleton] at hx'
    subst hx'
    rw [List.mem_map] at hx
    obtain ⟨e, he, hke⟩ := hx
    exact hany (by rw [List.any_eq_true]; exact ⟨e, he, by simp [hke]⟩)

theorem processPostings_keys_nodup (t : ℤ) :
    ∀ (postings : List (ℤ × ℤ)) (scores : List ((ℤ × ℤ) × ℕ)),
      (scores.map Prod.fst).Nodup →
      ((processPostings t scores postings).map Prod.fst).Nodup := by
  intro postings
  induction postings with
  | nil => intro scores h; exact h
  | cons p ps ih =>
    intro scores h
    exact ih (addVote scores (p.1, p.2 - t)) (addVote_keys_nodup h)

theorem voteLoop_keys_nodup_aux (idx : ℤ × ℤ × ℤ → List (ℤ × ℤ)) :
    ∀ (q : List ((ℤ × ℤ × ℤ) × ℤ)) (acc : List ((ℤ × ℤ) × ℕ) × ℕ),
      (acc.1.map Prod.fst).Nodup →
      ((q.foldl (fun acc fp => (processPostings fp.2 acc.1 (idx fp.1), acc.2 + 1))
          acc).1.map Prod.fst).Nodup := by
  intro q
  induction q with
  | nil => intro acc h; exact h
  | cons fp rest ih =>
    intro acc h
    exact ih _ (processPostings_keys_nodup fp.2 (idx fp.1) acc.1 h)

/-- The vote map built by match_query has pairwise-distinct
(song_id, offset) keys, so its length is the number of distinct pairs. -/
theorem voteLoop_keys_nodup (idx : ℤ × ℤ × ℤ → List (ℤ × ℤ))
    (q : List ((ℤ × ℤ × ℤ) × ℤ)) : ((voteLoop idx q).1.map Prod.fst).Nodup :=
  voteLoop_keys_nodup_aux idx q ([], 0) (by simp)

theorem argmaxFirst_isSome_aux {κ : Type} :
    ∀ (l : List (κ × ℕ)) (b : κ × ℕ),
      ∃ r, List.foldl
        (fun best e =>
          match best with
          | none => some e
          | some b => if b.2 < e.2 then some e else some b)
        (some b) l = some r := by
  intro l
  induction l with
  | nil => intro b; exact ⟨b, rfl⟩
  | cons a l ih =>
    intro b
    simp only [List.foldl_cons]
    split <;> apply ih

theorem argmaxFirst_ne_none {κ : Type} (x : κ × ℕ) (l : List (κ × ℕ)) :
    argmaxFirst (x :: l) ≠ none := by
  unfold argmaxFirst
  simp only [List.foldl_cons]
  obtain ⟨r, hr⟩ := argmaxFirst_isSome_aux l x
  rw [hr]
  simp

/-- C3: after a successful match, the reported confidence equals the
winning song's best vote count divided by the number of distinct
(song_id, offset) pairs across the entire vote map. -/
theorem matchQuery_confidence_denominator (idx : ℤ × ℤ × ℤ → List (ℤ × ℤ))
    (q : List ((ℤ × ℤ × ℤ) × ℤ)) (sid : ℤ) (scores : List ((ℤ × ℤ) × ℕ)) (c : ℕ)
    (hm : matchQuery idx q = ((some sid, scores), c)) :
    (getMatchDetails sid scores).confidence =
      ((getMatchDetails sid scores).best_score : ℚ) /
        (((scores.map Prod.fst).toFinset.card : ℕ) : ℚ) := by
  have hscores : scores = (voteLoop idx q).1 ∧ scores ≠ [] := by
    simp only [matchQuery] at hm
    rcases h : argmaxFirst (voteLoop idx q).1 with _ | best
    · rw [h] at hm
      simp at hm
    · rw [h] at hm
      simp only [Prod.mk.injEq, Option.some.injEq] at hm
      obtain ⟨⟨_, hsc⟩, _⟩ := hm
      refine ⟨hsc.symm, ?_⟩
      intro hnil
      rw [hsc, hnil] at h
      exact Option.noConfusion h
  obtain ⟨hsc, hne⟩ := hscores
  have hnodup : (scores.map Prod.fst).Nodup := by
    rw [hsc]; exact voteLoop_keys_nodup idx q
  have hcard : (scores.map Prod.fst).toFinset.card = scores.length := by
    rw [List.toFinset_card_of_nodup hnodup, List.length_map]
  rw [hcard]
  unfold getMatchDetails
  simp only []
  rw [if_neg (by simpa [List.isEmpty_iff] using hne)]

/-- Witness for C3: a one-entry index matched by a one-fingerprint query
gives a single vote (song 1, offset 90) and confidence 1 / 1. -/
theorem matchQuery_confidence_denominator_witness :
    matchQuery
        (fun h => if h = ((5 : ℤ), (9 : ℤ), (4 : ℤ)) then [((1 : ℤ), (100 : ℤ))] else [])
        [(((5 : ℤ), (9 : ℤ), (4 : ℤ)), (10 : ℤ))] =
      ((some 1, [(((1 : ℤ), (90 : ℤ)), 1)]), 1) ∧
    (getMatchDetails 1 [(((1 : ℤ), (90 : ℤ)), 1)]).confidence =
      ((getMatchDetails 1 [(((1 : ℤ), (90 : ℤ)), 1)]).best_score : ℚ) /
        ((((([(((1 : ℤ), (90 : ℤ)), 1)] : List ((ℤ × ℤ) × ℕ)).map
            Prod.fst).toFinset.card : ℕ)) : ℚ) :=
  ⟨by decide,
    matchQuery_confidence_denominator
      (fun h => if h = ((5 : ℤ), (9 : ℤ), (4 : ℤ)) then [((1 : ℤ), (100 : ℤ))] else [])
      [(((5 : ℤ), (9 : ℤ), (4 : ℤ)), (10 : ℤ))] 1 [(((1 : ℤ), (90 : ℤ)), 1)] 1
      (by decide)⟩

/-! ## Helper lemmas about edge padding and the maximum filter -/

theorem headD_eq_getD {β : Type} (l : List β) (d : β) : l.headD d = l.getD 0 d := by
  rw [List.headD_eq_head?, List.head?_eq_getElem?, ← List.getD_eq_getElem?_getD]

theorem getLastD_eq_getD {β : Type} (l : List β) (d : β) :
    l.getLastD d = l.getD (l.length - 1) d := by
  rw [List.getLastD_eq_getLast?, List.getLast?_eq_getElem?, ← List.getD_eq_getElem?_getD]

theorem getD_replicate_of_lt {β : Type} (a d : β) {n k : ℕ} (h : k < n) :
    (List.replicate n a).getD k d = a := by
  rw [List.getD_eq_getElem _ _ (by simpa using h), List.getElem_replicate]

theorem padEdge_length {β : Type} [Inhabited β] (lo hi : ℕ) (l : List β) :
    (padEdge lo hi l).length = lo + l.length + hi := by
  simp [padEdge]
  omega

theorem headD_mem {β : Type} [Inhabited β] {l : List β} (hl : l ≠ []) :
    l.headD default ∈ l := by
  cases l with
  | nil => exact absurd rfl hl
  | cons a t => simp

theorem getLastD_mem {β : Type} [Inhabited β] {l : List β} (hl : l ≠ []) :
    l.getLastD default ∈ l := by
  have hlen : 0 < l.length := List.length_pos.mpr hl
  rw [getLastD_eq_getD l default, List.getD_eq_getElem _ _ (by omega)]
  exact List.getElem_mem _

theorem padEdge_mem {β : Type} [Inhabited β] {lo hi : ℕ} {l : List β} (hl : l ≠ []) :
    ∀ x ∈ padEdge lo hi l, x ∈ l := by
  intro x hx
  unfold padEdge at hx
  rw [List.mem_append, List.mem_append] at hx
  rcases hx with (hx | hx) | hx
  · rw [List.mem_replicate] at hx
    rw [hx.2]
    exact headD_mem hl
  · exact hx
  · rw [List.mem_replicate] at hx
    rw [hx.2]
    exact getLastD_mem hl

theorem padEdge_getD {β : Type} [Inhabited β] (lo hi : ℕ) (l : List β) (hl : l ≠ [])
    (k : ℕ) (hk : k < lo + l.length + hi) :
    (padEdge lo hi l).getD k default = l.getD (min (k - lo) (l.length - 1)) default := by
  have hlen : 0 < l.length := List.length_pos.mpr hl
  unfold padEdge
  by_cases h1 : k < lo
  · rw [List.getD_append _ _ _ k (by simp; omega),
      List.getD_append _ _ _ k (by simpa using h1),
      getD_replicate_of_lt _ _ h1, headD_eq_getD]
    have : min (k - lo) (l.length - 1) = 0 := by omega
    rw [this]
  · by_cases h2 : k - lo < l.length
    · rw [List.getD_append _ _ _ k (by simp; omega),
        List.getD_append_right _ _ _ k (by simpa using not_lt.mp h1)]
      have : min (k - lo) (l.length - 1) = k - lo := by omega
      rw [this, List.length_replicate]
    · rw [List.getD_append_right _ _ _ k (by simp; omega),
        getD_replicate_of_lt _ _ (by simp; omega), getLastD_eq_getD]
      have : min (k - lo) (l.length - 1) = l.length - 1 := by omega
      rw [this]

theorem maximumFilter_eq_none_iff {α : Type} [Inhabited α] [LinearOrder α]
    (m : List (List α)) (fw tw : ℕ) (hfw : 0 < fw) (htw : 0 < tw) :
    maximumFilter m (fw, tw) = none ↔
      m.length < fw ∨ (m.headD default).length < tw := by
  simp only [maximumFilter]
  split_ifs with h1 h2 h3
  · exact iff_of_true rfl (by omega)
  · exact iff_of_true rfl (by omega)
  · exact iff_of_true rfl (by omega)
  · exact iff_of_false (by simp) (by omega)

/-- C10: peak detection fails (the numpy pipeline raises, modelled as none)
exactly on spectrograms with fewer rows than the frequency window or fewer
columns than the time window; it never returns a peak list for such inputs. -/
theorem findPeaks_fails_iff_small {α : Type} [Inhabited α] [LinearOrder α]
    (m : List (List α)) (fd td fw tw : ℕ) (θ : α) (hm : IsMatrix m fd td)
    (hfw : 0 < fw) (htw : 0 < tw) :
    findPeaks m (fw, tw) θ = none ↔ fd < fw ∨ td < tw := by
  obtain ⟨hlen, hrow⟩ := hm
  have hnone : findPeaks m (fw, tw) θ = none ↔ maximumFilter m (fw, tw) = none := by
    unfold findPeaks
    cases maximumFilter m (fw, tw) <;> simp
  rw [hnone, maximumFilter_eq_none_iff m fw tw hfw htw, hlen]
  cases m with
  | nil =>
    simp only [List.length_nil] at hlen
    subst hlen
    constructor <;> intro <;> exact Or.inl hfw
  | cons r t =>
    have : (List.headD (r :: t) default).length = td := hrow r (by simp)
    rw [show List.headD (r :: t) default = r from rfl] at this
    rw [show ((r :: t).headD default) = r from rfl, this]

/-- Witness for C10: a 1 by 1 spectrogram with the default 20 by 20
neighborhood makes find_peaks fail. -/
theorem findPeaks_fails_iff_small_witness :
    IsMatrix ([[(0 : ℤ)]]) 1 1 ∧ 0 < 20 ∧ 0 < 20 ∧
      (findPeaks ([[(0 : ℤ)]]) (20, 20) (0 : ℤ) = none ↔ (1 < 20 ∨ 1 < 20)) :=
  ⟨⟨rfl, by simp⟩, by decide, by decide,
    findPeaks_fails_iff_small [[(0 : ℤ)]] 1 1 20 20 0 ⟨rfl, by simp⟩
      (by decide) (by decide)⟩

theorem range_map_getD {β : Type} [Inhabited β] (f : ℕ → β) (n k : ℕ) (hk : k < n) :
    ((List.range n).map f).getD k default = f k := by
  rw [List.getD_eq_getElem _ _ (by simpa using hk), List.getElem_map, List.getElem_range]

theorem validWindowMaxima_length {α : Type} [Inhabited α] [LinearOrder α]
    (m : List (List α)) (fw tw : ℕ) :
    (validWindowMaxima m fw tw).length = m.length + 1 - fw := by
  simp [validWindowMaxima]

theorem validWindowMaxima_getD {α : Type} [Inhabited α] [LinearOrder α]
    (m : List (List α)) (fw tw k : ℕ) (hk : k < m.length + 1 - fw) :
    (validWindowMaxima m fw tw).getD k default =
      (List.range ((m.headD default).length + 1 - tw)).map
        (fun j => windowMax m k j fw tw) := by
  have hk' : k < (validWindowMaxima m fw tw).length := by
    rw [validWindowMaxima_length]; exact hk
  rw [List.getD_eq_getElem _ _ hk']
  unfold validWindowMaxima
  rw [List.getElem_map, List.getElem_range]

theorem validWindowMaxima_mem_length {α : Type} [Inhabited α] [LinearOrder α]
    {m : List (List α)} {fw tw : ℕ} {r : List α}
    (hr : r ∈ validWindowMaxima m fw tw) :
    r.length = (m.headD default).length + 1 - tw := by
  unfold validWindowMaxima at hr
  rw [List.mem_map] at hr
  obtain ⟨i, _, rfl⟩ := hr
  simp

/-- C4 counterexample: on the 3 by 3 matrix with a single large value in
the bottom-right corner and a 3 by 3 window, maximum_filter propagates the
corner maximum to every cell (it edge-pads the reduced result), while the
maximum over the neighborhood centered at (0, 0) with edge-value padding of
the input never sees that corner; the claimed per-cell equality fails. -/
theorem maximumFilter_not_centered_neighborhood :
    ∃ M, maximumFilter ([[0, 0, 0], [0, 0, 0], [0, 0, 10]] : List (List ℤ)) (3, 3) =
        some M ∧
      mget M 0 0 ≠
        specCenteredMax ([[0, 0, 0], [0, 0, 0], [0, 0, 10]] : List (List ℤ)) 3 3 0 0 :=
  ⟨[[10, 10, 10], [10, 10, 10], [10, 10, 10]], by decide, by decide⟩

/-- C4 amended: for matrices at least as large as the window, the filtered
matrix keeps the input shape, and every cell holds the maximum of the full
freq_window by time_window window whose top-left corner is the cell's
position shifted by the padding offsets and clamped to lie inside the
matrix. For interior cells this is the neighborhood centered on the cell;
at the boundary it is the nearest full window, which can differ from the
spec's centered neighborhood over the edge-padded input. -/
theorem maximumFilter_shape_and_clamped_values {α : Type} [Inhabited α]
    [LinearOrder α] (m : List (List α)) (fd td fw tw : ℕ) (hm : IsMatrix m fd td)
    (hfw : 0 < fw) (htw : 0 < tw) (hfd : fw ≤ fd) (htd : tw ≤ td) :
    ∃ M, maximumFilter m (fw, tw) = some M ∧ IsMatrix M fd td ∧
      ∀ i < fd, ∀ j < td,
        mget M i j = windowMax m (min (i - (fw - 1) / 2) (fd - fw))
          (min (j - (tw - 1) / 2) (td - tw)) fw tw := by
  obtain ⟨hlen, hrowlen⟩ := hm
  have hfd0 : 0 < fd := lt_of_lt_of_le hfw hfd
  have hm0 : m ≠ [] := by
    intro h
    rw [h] at hlen
    simp at hlen
    omega
  have htdh : (m.headD default).length = td := hrowlen _ (headD_mem hm0)
  have hflen : (validWindowMaxima m fw tw).length = fd + 1 - fw := by
    rw [validWindowMaxima_length, hlen]
  have hfne : validWindowMaxima m fw tw ≠ [] := by
    intro h
    rw [h] at hflen
    simp at hflen
    omega
  refine ⟨(padEdge ((fw - 1) / 2) (fw - 1 - (fw - 1) / 2)
      (validWindowMaxima m fw tw)).map
    (padEdge ((tw - 1) / 2) (tw - 1 - (tw - 1) / 2)), ?_, ?_, ?_⟩
  · simp only [maximumFilter]
    rw [if_neg (by rw [hlen, htdh]; omega),
      if_neg (by omega),
      if_neg (by rw [hlen, htdh]; omega)]
  · constructor
    · rw [List.length_map, padEdge_length, hflen]
      omega
    · intro row hrow
      rw [List.mem_map] at hrow
      obtain ⟨r, hr, rfl⟩ := hrow
      have hrmem : r ∈ validWindowMaxima m fw tw := padEdge_mem hfne r hr
      have hrlen : r.length = td + 1 - tw := by
        rw [validWindowMaxima_mem_length hrmem, htdh]
      rw [padEdge_length, hrlen]
      omega
  · intro i hi j hj
    set R := padEdge ((fw - 1) / 2) (fw - 1 - (fw - 1) / 2)
      (validWindowMaxima m fw tw) with hR
    have hRlen : R.length = fd := by
      rw [hR, padEdge_length, hflen]
      omega
    have hiR : i < (R.map (padEdge ((tw - 1) / 2) (tw - 1 - (tw - 1) / 2))).length := by
      rw [List.length_map, hRlen]
      exact hi
    unfold mget
    rw [List.getD_eq_getElem _ _ hiR, List.getElem_map,
      ← List.getD_eq_getElem R default]
    have hstepB : R.getD i default =
        (validWindowMaxima m fw tw).getD
          (min (i - (fw - 1) / 2) ((validWindowMaxima m fw tw).length - 1))
          default := by
      rw [hR]
      exact padEdge_getD _ _ _ hfne i (by rw [hflen]; omega)
    rw [hstepB]
    set k := min (i - (fw - 1) / 2) ((validWindowMaxima m fw tw).length - 1) with hk
    have hkeq : k = min (i - (fw - 1) / 2) (fd - fw) := by
      rw [hk, hflen]
      omega
    have hklt : k < fd + 1 - fw := by omega
    rw [validWindowMaxima_getD m fw tw k (by rw [hlen]; exact hklt), htdh]
    set rowK := (List.range (td + 1 - tw)).map (fun j => windowMax m k j fw tw)
      with hrowK
    have hrowKlen : rowK.length = td + 1 - tw := by
      rw [hrowK]
      simp
    have hrowKne : rowK ≠ [] := by
      intro h
      rw [h] at hrowKlen
      simp at hrowKlen
      omega
    rw [padEdge_getD _ _ _ hrowKne j (by rw [hrowKlen]; omega)]
    set j2 := min (j - (tw - 1) / 2) (rowK.length - 1) with hj2
    have hj2eq : j2 = min (j - (tw - 1) / 2) (td - tw) := by
      rw [hj2, hrowKlen]
      omega
    have hj2lt : j2 < td + 1 - tw := by
      rw [hj2, hrowKlen]
      omega
    rw [show rowK.getD j2 default = windowMax m k j2 fw tw from by
      rw [hrowK]; exact range_map_getD _ _ _ hj2lt]
    rw [hkeq, hj2eq]

/-- Witness for the amended C4 on a concrete 2 by 2 matrix with a 2 by 2
window. -/
theorem maximumFilter_shape_and_clamped_values_witness :
    IsMatrix ([[(0 : ℤ), 1], [2, 3]]) 2 2 ∧ 0 < 2 ∧ 2 ≤ 2 ∧
      (∃ M, maximumFilter ([[(0 : ℤ), 1], [2, 3]]) (2, 2) = some M ∧
        IsMatrix M 2 2 ∧
        ∀ i < 2, ∀ j < 2,
          mget M i j = windowMax ([[(0 : ℤ), 1], [2, 3]])
            (min (i - (2 - 1) / 2) (2 - 2)) (min (j - (2 - 1) / 2) (2 - 2)) 2 2) :=
  ⟨⟨rfl, by simp⟩, by decide, by decide,
    maximumFilter_shape_and_clamped_values ([[(0 : ℤ), 1], [2, 3]]) 2 2 2 2
      ⟨rfl, by simp⟩ (by decide) (by decide) (by decide) (by decide)⟩

end HocusPocus
